import Mathlib

/-!
Shallow embedding of the CHIP-8 emulator core (`src/chip8/cpu.rs`) and of the
constants module it imports.  Machine integers are modelled as `Nat` with
explicit `% 2^w` at the operations where wrap-around can occur (release-mode
Rust semantics).  Rust's fixed-size arrays are modelled as total functions
from indices; the array bound is carried by the constant sizes, and an
out-of-bounds index on `memory` (a panic in Rust) is modelled by an explicit
`addr < MEMORY_SIZE` guard returning `none`.
-/

namespace CHIP8

/-- Modelled from the spec: the constants module is not in the sources.
The spec fixes memory size "conventionally 4096". -/
def MEMORY_SIZE : Nat := 4096

/-- Modelled from the spec: "16 general-purpose 8-bit slots". -/
def NUM_REGISTERS : Nat := 16

/-- Modelled from the spec: call stack "conventionally 16 entries". -/
def STACK_SIZE : Nat := 16

/-- Modelled from the spec: display "conventionally 64×32". -/
def DISPLAY_WIDTH : Nat := 64

/-- Modelled from the spec: display "conventionally 64×32". -/
def DISPLAY_HEIGHT : Nat := 32

/-- Modelled from the spec: keypad "conventionally 16, indexed 0x0–0xF". -/
def NUM_KEYS : Nat := 16

/-- Modelled from the spec: load address "conventionally 0x200". -/
def PROGRAM_START : Nat := 0x200

/-- Modelled from the spec: the font table lives in the reserved low region
0x000–0x1FF; the conventional base address is 0x50. -/
def FONT_START : Nat := 0x50

/-- Modelled from the spec: the built-in character-glyph font table,
16 glyphs of 5 bytes each (the conventional CHIP-8 font sprites). -/
def FONT_SET : List Nat :=
  [0xF0, 0x90, 0x90, 0x90, 0xF0,
   0x20, 0x60, 0x20, 0x20, 0x70,
   0xF0, 0x10, 0xF0, 0x80, 0xF0,
   0xF0, 0x10, 0xF0, 0x10, 0xF0,
   0x90, 0x90, 0xF0, 0x10, 0x10,
   0xF0, 0x80, 0xF0, 0x10, 0xF0,
   0xF0, 0x80, 0xF0, 0x90, 0xF0,
   0xF0, 0x10, 0x20, 0x40, 0x40,
   0xF0, 0x90, 0xF0, 0x90, 0xF0,
   0xF0, 0x90, 0xF0, 0x10, 0xF0,
   0xF0, 0x90, 0xF0, 0x90, 0x90,
   0xE0, 0x90, 0xE0, 0x90, 0xE0,
   0xF0, 0x80, 0x80, 0x80, 0xF0,
   0xE0, 0x90, 0x90, 0x90, 0xE0,
   0xF0, 0x80, 0xF0, 0x80, 0xF0,
   0xF0, 0x80, 0xF0, 0x80, 0x80]

/-- Pointwise update of an index-to-value function (one array store). -/
def upd {α : Type} (f : Nat → α) (idx : Nat) (val : α) : Nat → α :=
  fun j => if j = idx then val else f j

/-- The full CHIP-8 machine state (`struct Chip8` in `cpu.rs`).  The array
fields (`memory`, `v`, `stack`, `display`, `keys`) are index functions; only
indices below the corresponding size constant are meaningful. -/
structure Chip8 where
  memory : Nat → Nat
  v : Nat → Nat
  i : Nat
  pc : Nat
  stack : Nat → Nat
  sp : Nat
  display : Nat → Nat → Bool
  keys : Nat → Bool
  delay_timer : Nat
  sound_timer : Nat
  waiting_for_key : Option Nat

/-- Decoded opcode fields (`struct DecodedFields` in `cpu.rs`). -/
structure DecodedFields where
  first_nibble : Nat
  x : Nat
  y : Nat
  n : Nat
  nn : Nat
  nnn : Nat
deriving DecidableEq

/-- Rust `DecodedFields::new`: fixed bit-masking and shifting of the 16-bit word. -/
def DecodedFields.new (opcode : Nat) : DecodedFields :=
  { first_nibble := (opcode &&& 0xF000) >>> 12
    x := (opcode &&& 0x0F00) >>> 8
    y := (opcode &&& 0x00F0) >>> 4
    n := opcode &&& 0x000F
    nn := opcode &&& 0x00FF
    nnn := opcode &&& 0x0FFF }

/-- Re-encoding of the four nibble-level decoded fields back into a 16-bit word. -/
def reencode (d : DecodedFields) : Nat :=
  (d.first_nibble <<< 12) ||| (d.x <<< 8) ||| (d.y <<< 4) ||| d.n

/-- Checked memory read: `self.memory[addr]` (Rust panics out of bounds). -/
def readMem (c : Chip8) (addr : Nat) : Option Nat :=
  if addr < MEMORY_SIZE then some (c.memory addr) else none

/-- Checked memory write: `self.memory[addr] = val` (Rust panics out of bounds). -/
def writeMem (c : Chip8) (addr val : Nat) : Option Chip8 :=
  if addr < MEMORY_SIZE then some { c with memory := upd c.memory addr val } else none

/-- Read `self.v[j]`. -/
def getV (c : Chip8) (j : Nat) : Nat := c.v j

/-- Write `self.v[j] = val`. -/
def setV (c : Chip8) (j val : Nat) : Chip8 := { c with v := upd c.v j val }

/-- Read `self.stack[j]`. -/
def getStack (c : Chip8) (j : Nat) : Nat := c.stack j

/-- Write `self.stack[j] = val`. -/
def setStack (c : Chip8) (j val : Nat) : Chip8 := { c with stack := upd c.stack j val }

/-- Read `self.keys[k]`. -/
def getKey (c : Chip8) (k : Nat) : Bool := c.keys k

/-- Read `self.display[y][x]`. -/
def getPixel (c : Chip8) (y x : Nat) : Bool := c.display y x

/-- Write `self.display[y][x] = b`. -/
def setPixel (c : Chip8) (y x : Nat) (b : Bool) : Chip8 :=
  { c with display := fun yy xx => if yy = y ∧ xx = x then b else c.display yy xx }

/-- Rust `Chip8::new`: zeroed state, font installed at `FONT_START`, pc at the
load address. -/
def Chip8.new : Chip8 :=
  let base : Chip8 :=
    { memory := fun _ => 0
      v := fun _ => 0
      i := 0
      pc := PROGRAM_START
      stack := fun _ => 0
      sp := 0
      display := fun _ _ => false
      keys := fun _ => false
      delay_timer := 0
      sound_timer := 0
      waiting_for_key := none }
  { base with
    memory := FONT_SET.enum.foldl (fun m p => upd m (FONT_START + p.1) p.2) base.memory }

/-- Rust `Chip8::load_rom`: copy the image to `PROGRAM_START`; panics (modelled
as `none`) if it would run past the end of memory. -/
def Chip8.load_rom (c : Chip8) (data : List Nat) : Option Chip8 :=
  if PROGRAM_START + data.length > MEMORY_SIZE then none
  else some { c with
    memory := data.enum.foldl (fun m p => upd m (PROGRAM_START + p.1) p.2) c.memory }

/-- Rust `Chip8::tick_timers`. -/
def Chip8.tick_timers (c : Chip8) : Chip8 :=
  { c with
    delay_timer := if c.delay_timer > 0 then c.delay_timer - 1 else c.delay_timer
    sound_timer := if c.sound_timer > 0 then c.sound_timer - 1 else c.sound_timer }

/-- Rust `Chip8::fetch`: read the big-endian opcode at `pc` and advance `pc` by 2
(u16 arithmetic). -/
def fetch (c : Chip8) : Option (Nat × Chip8) :=
  match readMem c c.pc with
  | none => none
  | some hi =>
    match readMem c ((c.pc + 1) % 65536) with
    | none => none
    | some lo => some ((hi <<< 8) ||| lo, { c with pc := (c.pc + 2) % 65536 })

/-- One step of the FX0A key-wait poll at the top of `cycle` (the loop body
at cpu.rs:151-156; note: no `break`, every pressed key overwrites `v[vx]`). -/
def keyPollStep (vx : Nat) (c : Chip8) (k : Nat) : Chip8 :=
  if getKey c k then { setV c vx k with waiting_for_key := none } else c

/-- The FX0A key-wait poll at the top of `cycle` (cpu.rs:150-158): iterate
over all `NUM_KEYS` keys in index order, without early exit. -/
def keyWaitPoll (vx : Nat) (c : Chip8) : Chip8 :=
  (List.range NUM_KEYS).foldl (keyPollStep vx) c

/-- The key scan inside the FX0A arm (cpu.rs:413-419), which `break`s on the
first pressed key. -/
def keyPollBreak (vx : Nat) (c : Chip8) : Chip8 :=
  match (List.range NUM_KEYS).find? (fun k => getKey c k) with
  | some k => { setV c vx k with waiting_for_key := none }
  | none => c

/-- Inner loop body of the DXYN draw (cpu.rs:362-376): one sprite bit. -/
def drawBitStep (xPos yPos row sb : Nat) (c : Chip8) (bit : Nat) : Chip8 :=
  if sb &&& (0x80 >>> bit) ≠ 0 then
    let x := (xPos + bit) % DISPLAY_WIDTH
    let y := (yPos + row) % DISPLAY_HEIGHT
    let c1 := if getPixel c y x then setV c 0xF 1 else c
    setPixel c1 y x (!getPixel c1 y x)
  else c

/-- One sprite row of the DXYN draw: the 8 bits of one sprite byte. -/
def drawRow (xPos yPos row sb : Nat) (c : Chip8) : Chip8 :=
  (List.range 8).foldl (drawBitStep xPos yPos row sb) c

/-- The DXYN draw loop (cpu.rs:358-377): read each sprite byte at
`I + row` (u16 add) and XOR-composite it. -/
def drawSprite (xPos yPos height : Nat) (c : Chip8) : Option Chip8 :=
  (List.range height).foldlM (fun s row =>
    match readMem s ((s.i + row) % 65536) with
    | none => none
    | some sb => some (drawRow xPos yPos row sb s)) c

/-- The FX33 arm: store the BCD digits of `value` at `I`, `I+1`, `I+2`
(three sequential unguarded writes; a panic anywhere aborts). -/
def bcdWrite (c : Chip8) (value : Nat) : Option Chip8 :=
  (writeMem c c.i (value / 100)).bind fun c1 =>
    (writeMem c1 (c.i + 1) ((value % 100) / 10)).bind fun c2 =>
      writeMem c2 (c.i + 2) (value % 10)

/-- The FX55 loop: store `v[0..=x]` at `I..` (unguarded writes). -/
def storeRegs (c : Chip8) (x : Nat) : Option Chip8 :=
  (List.range (x + 1)).foldlM (fun s idx => writeMem s (s.i + idx) (getV s idx)) c

/-- The FX65 loop: load `v[0..=x]` from `I..` (unguarded reads). -/
def loadRegs (c : Chip8) (x : Nat) : Option Chip8 :=
  (List.range (x + 1)).foldlM (fun s idx =>
    match readMem s (s.i + idx) with
    | none => none
    | some b => some (setV s idx b)) c

/-- The dispatch of `Chip8::cycle` after fetch and decode (cpu.rs:163-477).
`r` models the byte drawn from `rand::random()` in the CXNN arm. -/
def execOp (r : Nat) (opcode : Nat) (c : Chip8) : Option Chip8 :=
  let d := DecodedFields.new opcode
  match d.first_nibble with
  | 0x0 =>
    match opcode with
    | 0x00E0 => some { c with display := fun _ _ => false }
    | 0x00EE =>
      if c.sp = 0 then some c
      else some { c with sp := c.sp - 1, pc := getStack c (c.sp - 1) }
    | _ => some c
  | 0x1 => some { c with pc := d.nnn }
  | 0x2 =>
    if c.sp ≥ STACK_SIZE then some c
    else some { setStack c c.sp c.pc with sp := c.sp + 1, pc := d.nnn }
  | 0x3 =>
    if getV c d.x = d.nn then some { c with pc := (c.pc + 2) % 65536 } else some c
  | 0x4 =>
    if getV c d.x ≠ d.nn then some { c with pc := (c.pc + 2) % 65536 } else some c
  | 0x5 =>
    if d.n = 0 then
      if getV c d.x = getV c d.y then some { c with pc := (c.pc + 2) % 65536 } else some c
    else some c
  | 0x6 => some (setV c d.x d.nn)
  | 0x7 => some (setV c d.x ((getV c d.x + d.nn) % 256))
  | 0x8 =>
    match d.n with
    | 0x0 => some (setV c d.x (getV c d.y))
    | 0x1 => some (setV c d.x (getV c d.x ||| getV c d.y))
    | 0x2 => some (setV c d.x (getV c d.x &&& getV c d.y))
    | 0x3 => some (setV c d.x (getV c d.x ^^^ getV c d.y))
    | 0x4 =>
      let a := getV c d.x
      let b := getV c d.y
      some (setV (setV c d.x ((a + b) % 256)) 0xF (if a + b ≥ 256 then 1 else 0))
    | 0x5 =>
      let a := getV c d.x
      let b := getV c d.y
      some (setV (setV c d.x ((a + 256 - b) % 256)) 0xF (if a < b then 0 else 1))
    | 0x6 =>
      let c1 := setV c 0xF (getV c d.x &&& 0x1)
      some (setV c1 d.x (getV c1 d.x >>> 1))
    | 0x7 =>
      let a := getV c d.y
      let b := getV c d.x
      some (setV (setV c d.x ((a + 256 - b) % 256)) 0xF (if a < b then 0 else 1))
    | 0xE =>
      let c1 := setV c 0xF ((getV c d.x &&& 0x80) >>> 7)
      some (setV c1 d.x ((getV c1 d.x <<< 1) % 256))
    | _ => some c
  | 0x9 =>
    if d.n = 0 then
      if getV c d.x ≠ getV c d.y then some { c with pc := (c.pc + 2) % 65536 } else some c
    else some c
  | 0xA => some { c with i := d.nnn }
  | 0xB => some { c with pc := (d.nnn + getV c 0) % 65536 }
  | 0xC => some (setV c d.x ((r % 256) &&& d.nn))
  | 0xD => drawSprite (getV c d.x) (getV c d.y) d.n (setV c 0xF 0)
  | 0xE =>
    let key := getV c d.x
    match d.nn with
    | 0x9E =>
      if key < NUM_KEYS ∧ getKey c key then some { c with pc := (c.pc + 2) % 65536 }
      else some c
    | 0xA1 =>
      if key < NUM_KEYS ∧ ¬getKey c key then some { c with pc := (c.pc + 2) % 65536 }
      else some c
    | _ => some c
  | 0xF =>
    match d.nn with
    | 0x07 => some (setV c d.x c.delay_timer)
    | 0x0A =>
      match c.waiting_for_key with
      | some vx => some (keyPollBreak vx c)
      | none => some c
    | 0x15 => some { c with delay_timer := getV c d.x }
    | 0x18 => some { c with sound_timer := getV c d.x }
    | 0x1E => some { c with i := (c.i + getV c d.x) % 65536 }
    | 0x29 => some { c with i := FONT_START + (getV c d.x &&& 0xF) * 5 }
    | 0x33 => bcdWrite c (getV c d.x)
    | 0x55 => storeRegs c d.x
    | 0x65 => loadRegs c d.x
    | _ => some c
  | _ => some c

/-- Rust `Chip8::cycle`: if the FX0A wait state is pending, only poll the keypad
and return; otherwise fetch, decode and dispatch one instruction. -/
def cycle (r : Nat) (c : Chip8) : Option Chip8 :=
  match c.waiting_for_key with
  | some vx => some (keyWaitPoll vx c)
  | none =>
    match fetch c with
    | none => none
    | some (opcode, c1) => execOp r opcode c1

/-! ### Pointwise update lemmas -/

theorem upd_self {α : Type} (f : Nat → α) (idx : Nat) (val : α) :
    upd f idx val idx = val := by
  simp [upd]

theorem upd_ne {α : Type} (f : Nat → α) {idx j : Nat} (val : α) (h : j ≠ idx) :
    upd f idx val j = f j := by
  simp [upd, h]

/-! ### Fetch, cycle and decode lemmas -/

theorem fetch_eq (c : Chip8) (h1 : c.pc < MEMORY_SIZE)
    (h2 : (c.pc + 1) % 65536 < MEMORY_SIZE) :
    fetch c = some ((c.memory c.pc <<< 8) ||| c.memory ((c.pc + 1) % 65536),
      { c with pc := (c.pc + 2) % 65536 }) := by
  unfold fetch readMem
  rw [if_pos h1, if_pos h2]

theorem fetch_isSome_bounds {c : Chip8} (h : (fetch c).isSome) :
    c.pc < MEMORY_SIZE ∧ (c.pc + 1) % 65536 < MEMORY_SIZE := by
  by_cases h1 : c.pc < MEMORY_SIZE
  · by_cases h2 : (c.pc + 1) % 65536 < MEMORY_SIZE
    · exact ⟨h1, h2⟩
    · unfold fetch readMem at h
      rw [if_pos h1, if_neg h2] at h
      simp at h
  · unfold fetch readMem at h
    rw [if_neg h1] at h
    simp at h

theorem fetch_inv {c : Chip8} {op : Nat} {c1 : Chip8} (h : fetch c = some (op, c1)) :
    c1 = { c with pc := (c.pc + 2) % 65536 } ∧
    op = (c.memory c.pc <<< 8) ||| c.memory ((c.pc + 1) % 65536) ∧
    c.pc < MEMORY_SIZE ∧ (c.pc + 1) % 65536 < MEMORY_SIZE := by
  have hb := fetch_isSome_bounds (c := c) (by rw [h]; rfl)
  rw [fetch_eq c hb.1 hb.2] at h
  simp only [Option.some.injEq, Prod.mk.injEq] at h
  exact ⟨h.2.symm, h.1.symm, hb.1, hb.2⟩

theorem cycle_eq_exec {r : Nat} {c : Chip8} (hw : c.waiting_for_key = none)
    {op : Nat} {c1 : Chip8} (hf : fetch c = some (op, c1)) :
    cycle r c = execOp r op c1 := by
  simp only [cycle, hw, hf]

theorem cycle_waiting {r : Nat} {c : Chip8} {vx : Nat}
    (hw : c.waiting_for_key = some vx) :
    cycle r c = some (keyWaitPoll vx c) := by
  simp only [cycle, hw]

theorem decode_x_lt (op : Nat) : (DecodedFields.new op).x < 16 := by
  show (op &&& 0x0F00) >>> 8 < 16
  rw [Nat.shiftRight_eq_div_pow]
  have h1 : op &&& 0x0F00 ≤ 0x0F00 := Nat.and_le_right
  have h2 : (op &&& 0x0F00) / 2 ^ 8 ≤ 0x0F00 / 2 ^ 8 := Nat.div_le_div_right h1
  norm_num at h2
  omega

theorem decode_y_lt (op : Nat) : (DecodedFields.new op).y < 16 := by
  show (op &&& 0x00F0) >>> 4 < 16
  rw [Nat.shiftRight_eq_div_pow]
  have h1 : op &&& 0x00F0 ≤ 0x00F0 := Nat.and_le_right
  have h2 : (op &&& 0x00F0) / 2 ^ 4 ≤ 0x00F0 / 2 ^ 4 := Nat.div_le_div_right h1
  norm_num at h2
  omega

theorem decode_n_lt (op : Nat) : (DecodedFields.new op).n < 16 := by
  have h1 : op &&& 0x000F ≤ 0x000F := Nat.and_le_right
  exact Nat.lt_succ_of_le h1

theorem decode_nnn_lt (op : Nat) : (DecodedFields.new op).nnn < 4096 := by
  have h1 : op &&& 0x0FFF ≤ 0x0FFF := Nat.and_le_right
  exact Nat.lt_succ_of_le h1

/-! ### Claim C8: decode then re-encode reconstructs the word -/

theorem testBit_nibbleMask (s j : Nat) :
    Nat.testBit (15 <<< s) j = (decide (s ≤ j) && decide (j < s + 4)) := by
  rw [Nat.testBit_shiftLeft]
  have h15 : (15 : Nat) = 2 ^ 4 - 1 := by norm_num
  rw [h15, Nat.testBit_two_pow_sub_one, ← Bool.decide_and, ← Bool.decide_and]
  exact decide_eq_decide.mpr (by omega)

theorem testBit_61440 (j : Nat) :
    Nat.testBit 61440 j = (decide (12 ≤ j) && decide (j < 16)) := by
  have h : (61440 : Nat) = 15 <<< 12 := by decide
  rw [h, testBit_nibbleMask]

theorem testBit_3840 (j : Nat) :
    Nat.testBit 3840 j = (decide (8 ≤ j) && decide (j < 12)) := by
  have h : (3840 : Nat) = 15 <<< 8 := by decide
  rw [h, testBit_nibbleMask]

theorem testBit_240 (j : Nat) :
    Nat.testBit 240 j = (decide (4 ≤ j) && decide (j < 8)) := by
  have h : (240 : Nat) = 15 <<< 4 := by decide
  rw [h, testBit_nibbleMask]

theorem testBit_15 (j : Nat) : Nat.testBit 15 j = decide (j < 4) := by
  have h15 : (15 : Nat) = 2 ^ 4 - 1 := by norm_num
  rw [h15, Nat.testBit_two_pow_sub_one]

/-- C8: for every 16-bit instruction word, decoding it into the six fields
and re-encoding the extracted fields (leading nibble, X, Y, N) reconstructs
the original word. -/
theorem c8_decode_reencode_roundtrip (op : Nat) (h : op < 65536) :
    reencode (DecodedFields.new op) = op := by
  refine Nat.eq_of_testBit_eq fun j => ?_
  simp only [reencode, DecodedFields.new,
    Nat.testBit_lor, Nat.testBit_shiftLeft, Nat.testBit_shiftRight, Nat.testBit_and,
    testBit_61440, testBit_3840, testBit_240, testBit_15, ge_iff_le]
  rw [Bool.eq_iff_iff]
  simp only [Bool.or_eq_true, Bool.and_eq_true, decide_eq_true_eq]
  rcases Nat.lt_or_ge j 16 with hj16 | hj16
  · rcases Nat.lt_or_ge j 4 with hj | hj
    · simp [show ¬ 12 ≤ j by omega, show ¬ 8 ≤ j by omega, show ¬ 4 ≤ j by omega,
        show j < 4 by omega]
    · rcases Nat.lt_or_ge j 8 with hj2 | hj2
      · simp [show ¬ 12 ≤ j by omega, show ¬ 8 ≤ j by omega, show 4 ≤ j by omega,
          show 4 + (j - 4) = j by omega, show j < 8 by omega, show ¬ j < 4 by omega]
      · rcases Nat.lt_or_ge j 12 with hj3 | hj3
        · simp [show ¬ 12 ≤ j by omega, show 8 ≤ j by omega,
            show 8 + (j - 8) = j by omega, show 4 + (j - 4) = j by omega,
            show j < 12 by omega,
            show ¬ j < 8 by omega, show ¬ j < 4 by omega]
        · simp [show 12 ≤ j by omega, show 12 + (j - 12) = j by omega,
            show 8 + (j - 8) = j by omega, show 4 + (j - 4) = j by omega,
            show j < 16 by omega, show ¬ j < 12 by omega,
            show ¬ j < 8 by omega, show ¬ j < 4 by omega]
  · have hop : Nat.testBit op j = false := by
      refine Nat.testBit_lt_two_pow ?_
      calc op < 65536 := h
        _ = 2 ^ 16 := by norm_num
        _ ≤ 2 ^ j := Nat.pow_le_pow_right (by norm_num) hj16
    simp [hop, show 12 + (j - 12) = j by omega, show 8 + (j - 8) = j by omega,
      show 4 + (j - 4) = j by omega, show ¬ j < 16 by omega, show ¬ j < 12 by omega,
      show ¬ j < 8 by omega, show ¬ j < 4 by omega]

/-- Witness for C8 at the concrete word 0xD123. -/
theorem c8_witness : 0xD123 < 65536 ∧ reencode (DecodedFields.new 0xD123) = 0xD123 :=
  ⟨by decide, c8_decode_reencode_roundtrip 0xD123 (by decide)⟩

/-! ### Claim C1: FX0A never enters the wait state (code bug) -/

/-- A fresh machine whose ROM is the single instruction FX0A (X = 0),
with no key pressed. -/
def s1 : Chip8 := (Chip8.new.load_rom [0xF0, 0x0A]).getD Chip8.new

/-- C1 (failing input): executing FX0A leaves `waiting_for_key = none` and
advances the program counter — the machine never transitions to the
awaiting-key state, because the FX0A arm only acts when the wait state is
already set, which the top-of-cycle check makes unreachable.  The next cycle
therefore fetches and executes the following instruction normally. -/
theorem c1_fx0a_does_not_enter_wait :
    s1.waiting_for_key = none ∧ s1.pc = 0x200 ∧
    cycle 0 s1 = some { s1 with pc := 0x202 } :=
  ⟨rfl, rfl, rfl⟩

/-! ### Claim C4: call on a full stack / return on an empty stack -/

/-- C4: executing call with the stack already full, or return with the stack
empty, only reports a diagnostic: the cycle returns the post-fetch state
unchanged — the stack pointer and stack are untouched and the program
counter is left pointing past the offending instruction (the spec's
Execution Unit baseline, where fetch has already advanced the pc). -/
theorem c4_invalid_call_return_no_state_change (r : Nat) (c : Chip8) (op : Nat)
    (c1 : Chip8) (hw : c.waiting_for_key = none) (hf : fetch c = some (op, c1))
    (h : ((DecodedFields.new op).first_nibble = 0x2 ∧ STACK_SIZE ≤ c.sp) ∨
         (op = 0x00EE ∧ c.sp = 0)) :
    cycle r c = some c1 ∧ c1.sp = c.sp ∧ c1.stack = c.stack ∧
    c1.pc = (c.pc + 2) % 65536 := by
  obtain ⟨hc1, -, -, -⟩ := fetch_inv hf
  subst hc1
  rw [cycle_eq_exec hw hf]
  refine ⟨?_, rfl, rfl, rfl⟩
  rcases h with ⟨hfn, hsp⟩ | ⟨hop, hsp⟩
  · simp only [execOp]
    rw [hfn]
    show (if c.sp ≥ STACK_SIZE then _ else _) = _
    rw [if_pos hsp]
  · subst hop
    simp only [execOp, DecodedFields.new]
    norm_num
    intro hcon
    exact absurd hsp hcon

/-- A machine about to execute call 0x2300 with a full stack (sp = 16). -/
def s4a : Chip8 :=
  { (Chip8.new.load_rom [0x23, 0x00]).getD Chip8.new with sp := 16 }

/-- A machine about to execute return 0x00EE with an empty stack (sp = 0). -/
def s4b : Chip8 := (Chip8.new.load_rom [0x00, 0xEE]).getD Chip8.new

/-- Witness for C4: both the overflow and the underflow case at concrete
machines. -/
theorem c4_witness :
    (cycle 0 s4a = some { s4a with pc := 0x202 } ∧ s4a.sp = 16) ∧
    (cycle 0 s4b = some { s4b with pc := 0x202 } ∧ s4b.sp = 0) := by
  have ha := c4_invalid_call_return_no_state_change 0 s4a 0x2300
    { s4a with pc := 0x202 } rfl rfl (Or.inl ⟨by decide, by decide⟩)
  have hb := c4_invalid_call_return_no_state_change 0 s4b 0x00EE
    { s4b with pc := 0x202 } rfl rfl (Or.inr ⟨rfl, rfl⟩)
  exact ⟨⟨ha.1, rfl⟩, ⟨hb.1, rfl⟩⟩

/-! ### Shape lemmas for single execOp branches -/

theorem MEMORY_SIZE_eq : MEMORY_SIZE = 4096 := rfl

theorem STACK_SIZE_eq : STACK_SIZE = 16 := rfl

theorem NUM_KEYS_eq : NUM_KEYS = 16 := rfl

theorem execOp_call (r op : Nat) (c : Chip8)
    (hfn : (DecodedFields.new op).first_nibble = 0x2) (hsp : ¬ c.sp ≥ STACK_SIZE) :
    execOp r op c =
      some { setStack c c.sp c.pc with sp := c.sp + 1, pc := (DecodedFields.new op).nnn } := by
  simp only [execOp]
  rw [hfn]
  show (if c.sp ≥ STACK_SIZE then _ else _) = _
  rw [if_neg hsp]

theorem execOp_ret (r : Nat) (c : Chip8) :
    execOp r 0x00EE c =
      if c.sp = 0 then some c
      else some { c with sp := c.sp - 1, pc := getStack c (c.sp - 1) } := rfl

theorem execOp_sub (r op : Nat) (c : Chip8)
    (hfn : (DecodedFields.new op).first_nibble = 0x8)
    (hn : (DecodedFields.new op).n = 0x5) :
    execOp r op c =
      some (setV (setV c (DecodedFields.new op).x
          ((getV c (DecodedFields.new op).x + 256 - getV c (DecodedFields.new op).y) % 256))
        0xF (if getV c (DecodedFields.new op).x < getV c (DecodedFields.new op).y
             then 0 else 1)) := by
  simp only [execOp]
  rw [hfn, hn]

theorem execOp_subn (r op : Nat) (c : Chip8)
    (hfn : (DecodedFields.new op).first_nibble = 0x8)
    (hn : (DecodedFields.new op).n = 0x7) :
    execOp r op c =
      some (setV (setV c (DecodedFields.new op).x
          ((getV c (DecodedFields.new op).y + 256 - getV c (DecodedFields.new op).x) % 256))
        0xF (if getV c (DecodedFields.new op).y < getV c (DecodedFields.new op).x
             then 0 else 1)) := by
  simp only [execOp]
  rw [hfn, hn]

theorem execOp_skp (r op : Nat) (c : Chip8)
    (hfn : (DecodedFields.new op).first_nibble = 0xE)
    (hnn : (DecodedFields.new op).nn = 0x9E) :
    execOp r op c =
      if getV c (DecodedFields.new op).x < NUM_KEYS ∧
         getKey c (getV c (DecodedFields.new op).x) = true
      then some { c with pc := (c.pc + 2) % 65536 } else some c := by
  simp only [execOp]
  rw [hfn, hnn]

theorem execOp_sknp (r op : Nat) (c : Chip8)
    (hfn : (DecodedFields.new op).first_nibble = 0xE)
    (hnn : (DecodedFields.new op).nn = 0xA1) :
    execOp r op c =
      if getV c (DecodedFields.new op).x < NUM_KEYS ∧
         ¬ getKey c (getV c (DecodedFields.new op).x) = true
      then some { c with pc := (c.pc + 2) % 65536 } else some c := by
  simp only [execOp]
  rw [hfn, hnn]

/-! ### Claim C6: call then return restores pc to P+2 and sp -/

/-- C6: from any state about to execute a call (2NNN) with a non-full stack,
where the called address holds a return instruction (00EE), two cycles bring
the program counter to P+2 — the instruction after the call — and restore
the stack pointer to its pre-call value. -/
theorem c6_call_then_return (r r2 : Nat) (c : Chip8) (op : Nat) (c1 : Chip8)
    (hw : c.waiting_for_key = none) (hf : fetch c = some (op, c1))
    (hfn : (DecodedFields.new op).first_nibble = 0x2)
    (hsp : c.sp < STACK_SIZE)
    (hpc : c.pc + 2 < 65536)
    (hm1 : c.memory (DecodedFields.new op).nnn = 0x00)
    (hm2 : c.memory ((DecodedFields.new op).nnn + 1) = 0xEE)
    (hnnn : (DecodedFields.new op).nnn + 1 < MEMORY_SIZE) :
    ∃ c2 c3, cycle r c = some c2 ∧ cycle r2 c2 = some c3 ∧
      c3.pc = c.pc + 2 ∧ c3.sp = c.sp ∧ c3.memory = c.memory := by
  obtain ⟨hc1, -, -, -⟩ := fetch_inv hf
  subst hc1
  have hnnnlt := decode_nnn_lt op
  have hmod : ((DecodedFields.new op).nnn + 1) % 65536 = (DecodedFields.new op).nnn + 1 :=
    Nat.mod_eq_of_lt (by omega)
  set nnn := (DecodedFields.new op).nnn with hnnndef
  set c2 : Chip8 := { setStack { c with pc := (c.pc + 2) % 65536 } c.sp ((c.pc + 2) % 65536) with
      sp := c.sp + 1, pc := nnn } with hc2def
  have h1 : cycle r c = some c2 := by
    rw [cycle_eq_exec hw hf]
    exact execOp_call r op _ hfn (Nat.not_le.mpr hsp)
  have hw2 : c2.waiting_for_key = none := hw
  have hb1 : c2.pc < MEMORY_SIZE := by
    show nnn < MEMORY_SIZE
    rw [MEMORY_SIZE_eq]
    omega
  have hb2 : (c2.pc + 1) % 65536 < MEMORY_SIZE := by
    show (nnn + 1) % 65536 < MEMORY_SIZE
    rw [hmod]
    exact hnnn
  have hf2 := fetch_eq c2 hb1 hb2
  have hopc : (c2.memory c2.pc <<< 8) ||| c2.memory ((c2.pc + 1) % 65536) = 0x00EE := by
    show (c.memory nnn <<< 8) ||| c.memory ((nnn + 1) % 65536) = 0x00EE
    rw [hmod, hm1, hm2]
    decide
  rw [hopc] at hf2
  have h2 : cycle r2 c2 =
      some { c2 with pc := getStack c2 (c.sp + 1 - 1), sp := c.sp + 1 - 1 } := by
    rw [cycle_eq_exec hw2 hf2, execOp_ret]
    rw [if_neg (show ¬ ({ c2 with pc := (c2.pc + 2) % 65536 } : Chip8).sp = 0 by
      show ¬ c.sp + 1 = 0
      omega)]
    rfl
  refine ⟨c2, _, h1, h2, ?_, ?_, rfl⟩
  · show getStack c2 (c.sp + 1 - 1) = c.pc + 2
    show upd c.stack c.sp ((c.pc + 2) % 65536) c.sp = c.pc + 2
    rw [upd_self, Nat.mod_eq_of_lt hpc]
  · show c.sp + 1 - 1 = c.sp
    omega

/-- A fresh machine whose ROM calls 0x300 and stores a return instruction
there. -/
def s6 : Chip8 :=
  (Chip8.new.load_rom ([0x23, 0x00] ++ List.replicate 254 0 ++ [0x00, 0xEE])).getD Chip8.new

set_option maxRecDepth 8000 in
/-- Witness for C6 at a concrete machine: call 0x2300 then return. -/
theorem c6_witness :
    ∃ c2 c3, cycle 0 s6 = some c2 ∧ cycle 0 c2 = some c3 ∧
      c3.pc = 0x200 + 2 ∧ c3.sp = s6.sp ∧ c3.memory = s6.memory :=
  c6_call_then_return 0 0 s6 0x2300 { s6 with pc := 0x202 } rfl rfl
    (by decide) (by decide) (by decide) rfl rfl (by decide)

/-! ### Claim C7: subtract and reverse-subtract, no-borrow flag -/

/-- The minuend of 8XY5 (`v[x]`) or 8XY7 (`v[y]`). -/
def subMinuend (c : Chip8) (op : Nat) : Nat :=
  if (DecodedFields.new op).n = 0x5 then getV c (DecodedFields.new op).x
  else getV c (DecodedFields.new op).y

/-- The subtrahend of 8XY5 (`v[y]`) or 8XY7 (`v[x]`). -/
def subSubtrahend (c : Chip8) (op : Nat) : Nat :=
  if (DecodedFields.new op).n = 0x5 then getV c (DecodedFields.new op).y
  else getV c (DecodedFields.new op).x

/-- C7: the subtract (8XY5) and reverse-subtract (8XY7) instructions store
the 8-bit wrapped difference minuend − subtrahend in register X (when X is
not the flag register itself, which the flag write overwrites) and set VF to
1 exactly when no borrow occurred (subtrahend ≤ minuend), else 0. -/
theorem c7_subtract_no_borrow (r : Nat) (c : Chip8) (op : Nat) (c1 : Chip8)
    (hw : c.waiting_for_key = none) (hf : fetch c = some (op, c1))
    (hfn : (DecodedFields.new op).first_nibble = 0x8)
    (hn : (DecodedFields.new op).n = 0x5 ∨ (DecodedFields.new op).n = 0x7) :
    ∃ c2, cycle r c = some c2 ∧
      ((DecodedFields.new op).x ≠ 0xF →
        getV c2 (DecodedFields.new op).x =
          (subMinuend c op + 256 - subSubtrahend c op) % 256) ∧
      getV c2 0xF = (if subSubtrahend c op ≤ subMinuend c op then 1 else 0) := by
  obtain ⟨hc1, -, -, -⟩ := fetch_inv hf
  subst hc1
  rw [cycle_eq_exec hw hf]
  have hflip : ∀ a b : Nat,
      (if a < b then (0 : Nat) else 1) = (if b ≤ a then 1 else 0) := by
    intro a b
    by_cases hcase : a < b
    · rw [if_pos hcase, if_neg (by omega)]
    · rw [if_neg hcase, if_pos (by omega)]
  rcases hn with hn | hn
  · rw [execOp_sub r op _ hfn hn]
    refine ⟨_, rfl, ?_, ?_⟩
    · intro hx
      simp [getV, setV, upd, subMinuend, subSubtrahend, hn, hx]
    · simp [getV, setV, upd, subMinuend, subSubtrahend, hn, hflip]
  · rw [execOp_subn r op _ hfn hn]
    refine ⟨_, rfl, ?_, ?_⟩
    · intro hx
      simp [getV, setV, upd, subMinuend, subSubtrahend, hn, hx]
    · simp [getV, setV, upd, subMinuend, subSubtrahend, hn, hflip]

/-- A machine with v0 = 5, v1 = 3 about to execute 8015 (v0 -= v1). -/
def s7a : Chip8 :=
  { (Chip8.new.load_rom [0x80, 0x15]).getD Chip8.new with
    v := upd (upd (fun _ => 0) 0 5) 1 3 }

/-- A machine with v0 = 3, v1 = 5 about to execute 8015 (v0 -= v1). -/
def s7b : Chip8 :=
  { (Chip8.new.load_rom [0x80, 0x15]).getD Chip8.new with
    v := upd (upd (fun _ => 0) 0 3) 1 5 }

/-- Witness for C7: 5 − 3 = 2 with flag 1, and 3 − 5 = 0xFE with flag 0. -/
theorem c7_witness :
    (∃ c2, cycle 0 s7a = some c2 ∧ getV c2 0 = 0x02 ∧ getV c2 0xF = 1) ∧
    (∃ c2, cycle 0 s7b = some c2 ∧ getV c2 0 = 0xFE ∧ getV c2 0xF = 0) := by
  obtain ⟨c2a, ha1, ha2, ha3⟩ := c7_subtract_no_borrow 0 s7a 0x8015
    { s7a with pc := 0x202 } rfl rfl (by decide) (Or.inl (by decide))
  obtain ⟨c2b, hb1, hb2, hb3⟩ := c7_subtract_no_borrow 0 s7b 0x8015
    { s7b with pc := 0x202 } rfl rfl (by decide) (Or.inl (by decide))
  refine ⟨⟨c2a, ha1, ?_, ?_⟩, ⟨c2b, hb1, ?_, ?_⟩⟩
  · rw [show (0 : Nat) = (DecodedFields.new 0x8015).x from rfl, ha2 (by decide)]
    decide
  · rw [ha3]
    decide
  · rw [show (0 : Nat) = (DecodedFields.new 0x8015).x from rfl, hb2 (by decide)]
    decide
  · rw [hb3]
    decide

/-! ### Claim C9: EX9E / EXA1 with an out-of-range key index -/

/-- C9: when register X holds 16 or more, neither skip-if-key-pressed (EX9E)
nor skip-if-key-not-pressed (EXA1) skips: the guarded keypad test fails the
bound check first, no out-of-bounds access happens, and the cycle returns
exactly the post-fetch state (pc advanced by 2, nothing else changed). -/
theorem c9_skip_key_out_of_range (r : Nat) (c : Chip8) (op : Nat) (c1 : Chip8)
    (hw : c.waiting_for_key = none) (hf : fetch c = some (op, c1))
    (hfn : (DecodedFields.new op).first_nibble = 0xE)
    (hnn : (DecodedFields.new op).nn = 0x9E ∨ (DecodedFields.new op).nn = 0xA1)
    (hkey : NUM_KEYS ≤ getV c (DecodedFields.new op).x) :
    cycle r c = some c1 := by
  obtain ⟨hc1, -, -, -⟩ := fetch_inv hf
  subst hc1
  rw [cycle_eq_exec hw hf]
  rcases hnn with hnn | hnn
  · rw [execOp_skp r op _ hfn hnn, if_neg]
    rintro ⟨h1, -⟩
    have h1' : getV c (DecodedFields.new op).x < NUM_KEYS := h1
    rw [NUM_KEYS_eq] at h1' hkey
    omega
  · rw [execOp_sknp r op _ hfn hnn, if_neg]
    rintro ⟨h1, -⟩
    have h1' : getV c (DecodedFields.new op).x < NUM_KEYS := h1
    rw [NUM_KEYS_eq] at h1' hkey
    omega

/-- A machine with v0 = 200 about to execute EX9E (X = 0). -/
def s9 : Chip8 :=
  { (Chip8.new.load_rom [0xE0, 0x9E]).getD Chip8.new with v := upd (fun _ => 0) 0 200 }

/-- Witness for C9 at a concrete machine. -/
theorem c9_witness : cycle 0 s9 = some { s9 with pc := 0x202 } :=
  c9_skip_key_out_of_range 0 s9 0xE09E { s9 with pc := 0x202 } rfl rfl
    (by decide) (Or.inl (by decide)) (by decide)

/-! ### Claim C2: resolving the key wait -/

/-- The accumulator left by scanning keys `0, 1, …, m-1` in order and
recording each pressed key: the HIGHEST-indexed pressed key below `m`. -/
def lastPressedBelow (c : Chip8) (m : Nat) : Option Nat :=
  (List.range m).foldl (fun acc k => if getKey c k then some k else acc) none

/-- The key index the no-`break` poll loop leaves in the target register:
the highest-indexed pressed key. -/
def lastPressed (c : Chip8) : Option Nat := lastPressedBelow c NUM_KEYS

theorem upd_upd {α : Type} (f : Nat → α) (j : Nat) (a b : α) :
    upd (upd f j a) j b = upd f j b := by
  funext x
  by_cases hx : x = j <;> simp [upd, hx]

/-- Unfolding of the key-wait poll: scanning keys `0..m-1` either leaves the
state unchanged (no key pressed) or stores the highest-indexed pressed key
and clears the wait flag. -/
theorem keyPoll_foldl (vx : Nat) (c : Chip8) : ∀ m : Nat,
    (List.range m).foldl (keyPollStep vx) c =
      (match lastPressedBelow c m with
       | none => c
       | some k => { setV c vx k with waiting_for_key := none }) := by
  intro m
  induction m with
  | zero => rfl
  | succ m ih =>
    unfold lastPressedBelow at ih ⊢
    rw [List.range_succ, List.foldl_append, List.foldl_append, ih]
    cases hacc : (List.range m).foldl (fun acc k => if getKey c k then some k else acc) none with
    | none =>
      by_cases hkey : getKey c m
      · simp only [List.foldl_cons, List.foldl_nil, keyPollStep, hkey, if_true]
      · simp only [List.foldl_cons, List.foldl_nil, keyPollStep, hkey, if_false,
          Bool.false_eq_true]
    | some k =>
      by_cases hkey : getKey c m
      · have hkeys : getKey { setV c vx k with waiting_for_key := none } m = getKey c m := rfl
        simp only [List.foldl_cons, List.foldl_nil, keyPollStep, hkeys, hkey, if_true]
        show ({ setV (setV c vx k) vx m with waiting_for_key := none } : Chip8) =
          { setV c vx m with waiting_for_key := none }
        show ({ c with v := upd (upd c.v vx k) vx m, waiting_for_key := none } : Chip8) =
          { c with v := upd c.v vx m, waiting_for_key := none }
        rw [upd_upd]
      · have hkeys : getKey { setV c vx k with waiting_for_key := none } m = getKey c m := rfl
        simp only [List.foldl_cons, List.foldl_nil, keyPollStep, hkeys, hkey, if_false,
          Bool.false_eq_true]

/-- C2 counterexample: a machine in the awaiting-key state (target register
V0) with exactly keys 1 and 2 pressed.  The claim predicts V0 = 1, the
lowest-indexed pressed key. -/
def s2 : Chip8 :=
  { Chip8.new with waiting_for_key := some 0, keys := fun k => k == 1 || k == 2 }

/-- C2 counterexample: with keys 1 and 2 pressed, the resolving cycle stores
2 — the HIGHEST-indexed pressed key — in the target register, not 1: the
scan loop at the top of `cycle` has no `break`, so each pressed key
overwrites the register and the last one wins. -/
theorem c2_counterexample_highest_key :
    s2.waiting_for_key = some 0 ∧ s2.keys 1 = true ∧ s2.keys 2 = true ∧
    (∀ k, k < NUM_KEYS → k ≠ 1 → k ≠ 2 → s2.keys k = false) ∧
    (cycle 0 s2).map (fun c2 => getV c2 0) = some 2 ∧
    (cycle 0 s2).map (fun c2 => getV c2 0) ≠ some 1 := by
  refine ⟨rfl, rfl, rfl, by decide, rfl, by decide⟩

/-- C2 amended: when the machine is awaiting a key and at least one key is
pressed, the cycle writes the HIGHEST-indexed pressed key (the last one the
0-upward scan visits, each pressed key overwriting the register), clears the
wait state, and leaves everything else — in particular the program counter —
unchanged, so normal execution resumes on the following cycle. -/
theorem c2_amended_poll_stores_highest (r : Nat) (c : Chip8) (vx : Nat)
    (hw : c.waiting_for_key = some vx) (k : Nat) (hk : lastPressed c = some k) :
    cycle r c = some { setV c vx k with waiting_for_key := none } := by
  rw [cycle_waiting hw]
  show some (keyWaitPoll vx c) = _
  unfold keyWaitPoll
  rw [keyPoll_foldl vx c NUM_KEYS]
  rw [show lastPressedBelow c NUM_KEYS = lastPressed c from rfl, hk]

/-- Witness for C2 (amended) at the concrete machine `s2`: the stored key is
2 and the wait state is cleared, with the program counter untouched. -/
theorem c2_amended_witness :
    cycle 0 s2 = some { setV s2 0 2 with waiting_for_key := none } ∧
    getV { setV s2 0 2 with waiting_for_key := none } 0 = 2 ∧
    ({ setV s2 0 2 with waiting_for_key := none } : Chip8).pc = s2.pc :=
  ⟨c2_amended_poll_stores_highest 0 s2 0 rfl 2 (by decide), rfl, rfl⟩

/-! ### Preservation helpers for the draw and block-transfer loops -/

/-- All state components except the display and the registers. -/
def rest (c : Chip8) :
    (Nat → Nat) × Nat × Nat × (Nat → Nat) × Nat × (Nat → Bool) × Nat × Nat × Option Nat :=
  (c.memory, c.i, c.pc, c.stack, c.sp, c.keys, c.delay_timer, c.sound_timer,
   c.waiting_for_key)

theorem rest_memory {c c' : Chip8} (h : rest c' = rest c) : c'.memory = c.memory :=
  congrArg Prod.fst h

theorem rest_i {c c' : Chip8} (h : rest c' = rest c) : c'.i = c.i :=
  congrArg (fun p => p.2.1) h

theorem rest_pc {c c' : Chip8} (h : rest c' = rest c) : c'.pc = c.pc :=
  congrArg (fun p => p.2.2.1) h

theorem rest_waiting {c c' : Chip8} (h : rest c' = rest c) :
    c'.waiting_for_key = c.waiting_for_key :=
  congrArg (fun p => p.2.2.2.2.2.2.2.2) h

theorem drawBitStep_rest (xp yp row sb : Nat) (c : Chip8) (bit : Nat) :
    rest (drawBitStep xp yp row sb c bit) = rest c := by
  unfold drawBitStep
  split
  · dsimp only
    split <;> rfl
  · rfl

theorem foldl_rest_inv {β : Type} (f : Chip8 → β → Chip8)
    (h : ∀ s a, rest (f s a) = rest s) :
    ∀ (l : List β) (c : Chip8), rest (l.foldl f c) = rest c := by
  intro l
  induction l with
  | nil => intro c; rfl
  | cons hd tl ih =>
    intro c
    rw [List.foldl_cons, ih, h]

theorem drawRow_rest (xp yp row sb : Nat) (c : Chip8) :
    rest (drawRow xp yp row sb c) = rest c :=
  foldl_rest_inv _ (drawBitStep_rest xp yp row sb) _ c

theorem drawSprite_aux_rest (xp yp : Nat) : ∀ (l : List Nat) (c c' : Chip8),
    (l.foldlM (fun s row =>
      match readMem s ((s.i + row) % 65536) with
      | none => none
      | some sb => some (drawRow xp yp row sb s)) c) = some c' →
    rest c' = rest c := by
  intro l
  induction l with
  | nil =>
    intro c c' h
    rw [List.foldlM_nil] at h
    cases h
    rfl
  | cons hd tl ih =>
    intro c c' h
    rw [List.foldlM_cons] at h
    rcases hr : readMem c ((c.i + hd) % 65536) with - | sb
    · rw [hr] at h
      exact Option.noConfusion h
    · rw [hr] at h
      rw [ih _ _ h, drawRow_rest]

theorem drawSprite_rest {xp yp h : Nat} {c c' : Chip8}
    (hd : drawSprite xp yp h c = some c') : rest c' = rest c :=
  drawSprite_aux_rest xp yp (List.range h) c c' hd

theorem keyPollBreak_memory (vx : Nat) (c : Chip8) :
    (keyPollBreak vx c).memory = c.memory := by
  unfold keyPollBreak
  split <;> rfl

theorem storeRegs_aux : ∀ (l : List Nat) (c c' : Chip8),
    l.foldlM (fun s idx => writeMem s (s.i + idx) (getV s idx)) c = some c' →
    c'.i = c.i ∧ ∀ a, a < c.i → c'.memory a = c.memory a := by
  intro l
  induction l with
  | nil =>
    intro c c' h
    rw [List.foldlM_nil] at h
    cases h
    exact ⟨rfl, fun a _ => rfl⟩
  | cons hd tl ih =>
    intro c c' h
    rw [List.foldlM_cons] at h
    unfold writeMem at h
    by_cases hb : c.i + hd < MEMORY_SIZE
    · rw [if_pos hb] at h
      obtain ⟨hi, hmem⟩ := ih _ _ h
      refine ⟨hi, fun a ha => ?_⟩
      rw [hmem a ha]
      show upd c.memory (c.i + hd) _ a = c.memory a
      exact upd_ne _ _ (by omega)
    · rw [if_neg hb] at h
      exact Option.noConfusion h

theorem storeRegs_low {c c' : Chip8} {x : Nat} (h : storeRegs c x = some c') :
    c'.i = c.i ∧ ∀ a, a < c.i → c'.memory a = c.memory a :=
  storeRegs_aux (List.range (x + 1)) c c' h

theorem loadRegs_aux : ∀ (l : List Nat) (c c' : Chip8),
    l.foldlM (fun s idx =>
      match readMem s (s.i + idx) with
      | none => none
      | some b => some (setV s idx b)) c = some c' →
    c'.memory = c.memory := by
  intro l
  induction l with
  | nil =>
    intro c c' h
    rw [List.foldlM_nil] at h
    cases h
    rfl
  | cons hd tl ih =>
    intro c c' h
    rw [List.foldlM_cons] at h
    rcases hr : readMem c (c.i + hd) with - | b
    · rw [hr] at h
      exact Option.noConfusion h
    · rw [hr] at h
      rw [ih _ _ h]
      rfl

theorem loadRegs_memory {c c' : Chip8} {x : Nat} (h : loadRegs c x = some c') :
    c'.memory = c.memory :=
  loadRegs_aux (List.range (x + 1)) c c' h

/-! ### More execOp shape lemmas -/

theorem execOp_draw (r op : Nat) (c : Chip8)
    (hfn : (DecodedFields.new op).first_nibble = 0xD) :
    execOp r op c =
      drawSprite (getV c (DecodedFields.new op).x) (getV c (DecodedFields.new op).y)
        (DecodedFields.new op).n (setV c 0xF 0) := by
  simp only [execOp]
  rw [hfn]

theorem execOp_bcd (r op : Nat) (c : Chip8)
    (hfn : (DecodedFields.new op).first_nibble = 0xF)
    (hnn : (DecodedFields.new op).nn = 0x33) :
    execOp r op c = bcdWrite c (getV c (DecodedFields.new op).x) := by
  simp only [execOp]
  rw [hfn, hnn]

theorem execOp_store (r op : Nat) (c : Chip8)
    (hfn : (DecodedFields.new op).first_nibble = 0xF)
    (hnn : (DecodedFields.new op).nn = 0x55) :
    execOp r op c = storeRegs c (DecodedFields.new op).x := by
  simp only [execOp]
  rw [hfn, hnn]

theorem execOp_loadr (r op : Nat) (c : Chip8)
    (hfn : (DecodedFields.new op).first_nibble = 0xF)
    (hnn : (DecodedFields.new op).nn = 0x65) :
    execOp r op c = loadRegs c (DecodedFields.new op).x := by
  simp only [execOp]
  rw [hfn, hnn]

theorem bcdWrite_low {c c2 : Chip8} {value : Nat} (h : bcdWrite c value = some c2) :
    ∀ a, a < c.i → c2.memory a = c.memory a := by
  intro a ha
  unfold bcdWrite writeMem at h
  by_cases hb1 : c.i < MEMORY_SIZE
  · rw [if_pos hb1] at h
    replace h : (if c.i + 1 < MEMORY_SIZE then _ else none).bind _ = some c2 := h
    by_cases hb2 : c.i + 1 < MEMORY_SIZE
    · rw [if_pos hb2] at h
      replace h : (if c.i + 2 < MEMORY_SIZE then _ else none) = some c2 := h
      by_cases hb3 : c.i + 2 < MEMORY_SIZE
      · rw [if_pos hb3] at h
        rw [← Option.some.inj h]
        show upd (upd (upd c.memory c.i _) (c.i + 1) _) (c.i + 2) _ a = c.memory a
        rw [upd_ne _ _ (by omega), upd_ne _ _ (by omega), upd_ne _ _ (by omega)]
      · rw [if_neg hb3] at h
        exact Option.noConfusion h
    · rw [if_neg hb2] at h
      exact Option.noConfusion h
  · rw [if_neg hb1] at h
    exact Option.noConfusion h

/-- Every instruction other than FX33 and FX55 leaves memory unchanged. -/
theorem execOp_memory (r op : Nat) (c : Chip8) (c2 : Chip8)
    (hc : execOp r op c = some c2)
    (hno : ¬ ((DecodedFields.new op).first_nibble = 0xF ∧
              ((DecodedFields.new op).nn = 0x33 ∨ (DecodedFields.new op).nn = 0x55))) :
    c2.memory = c.memory := by
  simp only [execOp] at hc
  split at hc <;>
    first
      | (rw [← Option.some.inj hc]; rfl)
      | (rw [← Option.some.inj hc])
      | (exact loadRegs_memory hc)
      | (have hrest := drawSprite_rest hc; exact rest_memory hrest)
      | (exfalso; omega)
      | (split at hc <;>
          first
            | (rw [← Option.some.inj hc]; rfl)
            | (rw [← Option.some.inj hc]; exact keyPollBreak_memory _ _)
            | (rw [← Option.some.inj hc])
            | (exact loadRegs_memory hc)
            | (exfalso; omega)
            | (split at hc <;>
                first
                  | (rw [← Option.some.inj hc]; rfl)
                  | (rw [← Option.some.inj hc]; exact keyPollBreak_memory _ _)
                  | (rw [← Option.some.inj hc])
                  | (exfalso; omega)))

/-! ### Claim C3: the font region is not immutable (corrected) -/

/-- C3 counterexample state: a fresh machine whose ROM sets I = 0x50 (the
font base) and then executes FX33 (BCD store) with V3 = 0. -/
def s3 : Chip8 := (Chip8.new.load_rom [0xA0, 0x50, 0xF3, 0x33]).getD Chip8.new

/-- C3 counterexample: from a freshly constructed machine, two executed
instructions overwrite a font byte.  memory[0x50] holds 0xF0 (first byte of
the glyph for 0) after construction, and 0 after ANNN + FX33 with I = 0x50:
the reserved low region holding the font is not immutable. -/
theorem c3_counterexample_font_overwritten :
    s3.memory 0x50 = 0xF0 ∧
    ((cycle 0 s3).bind (cycle 0)).map (fun c2 => c2.memory 0x50) = some 0 ∧
    (0 : Nat) ≠ 0xF0 :=
  ⟨rfl, rfl, by decide⟩

/-- C3 amended: the font table is written once by `new()`, and the reserved
low region (0x000-0x1FF, which contains it) is preserved by every executed
instruction EXCEPT the two memory-writing ones, BCD-store (FX33) and
store-registers-block (FX55), which preserve it exactly when the index
register points at or above the program area (I >= 0x200); with I pointing
into the low region they can overwrite the font, as the counterexample
shows. -/
theorem c3_amended_low_region_preserved (r : Nat) (c : Chip8) (op : Nat) (c1 : Chip8)
    (hw : c.waiting_for_key = none) (hf : fetch c = some (op, c1))
    (hi : ((DecodedFields.new op).first_nibble = 0xF ∧
           ((DecodedFields.new op).nn = 0x33 ∨ (DecodedFields.new op).nn = 0x55)) →
          PROGRAM_START ≤ c.i)
    (c2 : Chip8) (hc : cycle r c = some c2)
    (a : Nat) (ha : a < PROGRAM_START) :
    c2.memory a = c.memory a := by
  obtain ⟨hc1, -, -, -⟩ := fetch_inv hf
  subst hc1
  rw [cycle_eq_exec hw hf] at hc
  by_cases hcase : (DecodedFields.new op).first_nibble = 0xF ∧
      ((DecodedFields.new op).nn = 0x33 ∨ (DecodedFields.new op).nn = 0x55)
  · have hPS := hi hcase
    obtain ⟨hF, h3355⟩ := hcase
    rcases h3355 with h33 | h55
    · rw [execOp_bcd r op _ hF h33] at hc
      exact bcdWrite_low hc a (show a < c.i by omega)
    · rw [execOp_store r op _ hF h55] at hc
      exact (storeRegs_low hc).2 a (show a < c.i by omega)
  · rw [execOp_memory r op _ c2 hc hcase]

/-- A machine with I = 0x300 about to execute FX55 (X = 3). -/
def s3w : Chip8 := { (Chip8.new.load_rom [0xF3, 0x55]).getD Chip8.new with i := 0x300 }

/-- Witness for C3 (amended) at a concrete machine: an FX55 with I in the
program area leaves the font byte at 0x50 unchanged. -/
theorem c3_amended_witness :
    ∃ c2, cycle 0 s3w = some c2 ∧ c2.memory 0x50 = s3w.memory 0x50 ∧
      s3w.memory 0x50 = 0xF0 :=
  ⟨(cycle 0 s3w).getD Chip8.new, rfl,
   c3_amended_low_region_preserved 0 s3w 0xF355 { s3w with pc := 0x202 } rfl rfl
     (fun _ => by decide) ((cycle 0 s3w).getD Chip8.new) rfl 0x50 (by decide),
   rfl⟩

/-! ### Claim C10: unguarded memory accesses are in bounds under the
stated preconditions, and the cycle is total -/

/-- The 16-bit word that fetch reads at the current program counter. -/
def opcodeAt (c : Chip8) : Nat :=
  (c.memory c.pc <<< 8) ||| c.memory ((c.pc + 1) % 65536)

theorem writeMem_pos {c : Chip8} {addr : Nat} (v : Nat) (h : addr < MEMORY_SIZE) :
    writeMem c addr v = some { c with memory := upd c.memory addr v } := by
  unfold writeMem
  rw [if_pos h]

theorem readMem_pos {c : Chip8} {addr : Nat} (h : addr < MEMORY_SIZE) :
    readMem c addr = some (c.memory addr) := by
  unfold readMem
  rw [if_pos h]

theorem bcdWrite_total {c : Chip8} (v : Nat) (h : c.i + 3 ≤ MEMORY_SIZE) :
    (bcdWrite c v).isSome := by
  unfold bcdWrite
  rw [writeMem_pos _ (by omega), Option.some_bind']
  rw [writeMem_pos _ (by omega), Option.some_bind']
  rw [writeMem_pos _ (by omega)]
  rfl

theorem storeRegs_total : ∀ (l : List Nat) (c : Chip8),
    (∀ idx ∈ l, c.i + idx < MEMORY_SIZE) →
    (l.foldlM (fun s idx => writeMem s (s.i + idx) (getV s idx)) c).isSome := by
  intro l
  induction l with
  | nil => intro c _; rfl
  | cons hd tl ih =>
    intro c h
    rw [List.foldlM_cons, writeMem_pos _ (h hd (List.mem_cons_self _ _))]
    exact ih _ (fun idx hidx => h idx (List.mem_cons_of_mem _ hidx))

theorem loadRegs_total : ∀ (l : List Nat) (c : Chip8),
    (∀ idx ∈ l, c.i + idx < MEMORY_SIZE) →
    (l.foldlM (fun s idx =>
      match readMem s (s.i + idx) with
      | none => none
      | some b => some (setV s idx b)) c).isSome := by
  intro l
  induction l with
  | nil => intro c _; rfl
  | cons hd tl ih =>
    intro c h
    rw [List.foldlM_cons, readMem_pos (h hd (List.mem_cons_self _ _))]
    exact ih _ (fun idx hidx => h idx (List.mem_cons_of_mem _ hidx))

theorem drawSprite_aux_total (xp yp : Nat) : ∀ (l : List Nat) (c : Chip8),
    (∀ row ∈ l, (c.i + row) % 65536 < MEMORY_SIZE) →
    ((l.foldlM (fun s row =>
      match readMem s ((s.i + row) % 65536) with
      | none => none
      | some sb => some (drawRow xp yp row sb s)) c).isSome) := by
  intro l
  induction l with
  | nil => intro c _; rfl
  | cons hd tl ih =>
    intro c h
    rw [List.foldlM_cons, readMem_pos (h hd (List.mem_cons_self _ _))]
    refine ih _ (fun row hrow => ?_)
    have hieq : (drawRow xp yp hd (c.memory ((c.i + hd) % 65536)) c).i = c.i :=
      rest_i (drawRow_rest _ _ _ _ _)
    rw [hieq]
    exact h row (List.mem_cons_of_mem _ hrow)

theorem drawSprite_total {xp yp n : Nat} {c : Chip8}
    (h : ∀ row, row < n → (c.i + row) % 65536 < MEMORY_SIZE) :
    (drawSprite xp yp n c).isSome :=
  drawSprite_aux_total xp yp (List.range n) c (fun row hrow => h row (List.mem_range.mp hrow))

/-- Every branch of the dispatch other than DXYN, FX33, FX55, FX65 touches no
memory and always produces a state. -/
theorem execOp_total_other (r op : Nat) (c : Chip8)
    (hD : (DecodedFields.new op).first_nibble ≠ 0xD)
    (h33 : ¬ ((DecodedFields.new op).first_nibble = 0xF ∧ (DecodedFields.new op).nn = 0x33))
    (h55 : ¬ ((DecodedFields.new op).first_nibble = 0xF ∧ (DecodedFields.new op).nn = 0x55))
    (h65 : ¬ ((DecodedFields.new op).first_nibble = 0xF ∧ (DecodedFields.new op).nn = 0x65)) :
    (execOp r op c).isSome := by
  simp only [execOp]
  split <;> first
    | rfl
    | (exfalso; omega)
    | (split <;> first
        | rfl
        | (exfalso; omega)
        | (split <;> first
            | rfl
            | (exfalso; omega)))

/-- C10: the memory accesses in fetch, draw-sprite, BCD-store and the block
store/load are unguarded and apply no address-space wraparound, but under
the preconditions pc + 1 < 4096, I + N <= 4096 for DXYN, I + 3 <= 4096 for
FX33, and I + X + 1 <= 4096 for FX55/FX65, every memory index they compute
is in bounds: the out-of-bounds (panic) branch is unreachable and the cycle
is total. -/
theorem c10_memory_accesses_in_bounds (r : Nat) (c : Chip8)
    (hw : c.waiting_for_key = none)
    (hpc : c.pc + 1 < MEMORY_SIZE)
    (hD : (DecodedFields.new (opcodeAt c)).first_nibble = 0xD →
          c.i + (DecodedFields.new (opcodeAt c)).n ≤ MEMORY_SIZE)
    (h33 : (DecodedFields.new (opcodeAt c)).first_nibble = 0xF →
           (DecodedFields.new (opcodeAt c)).nn = 0x33 → c.i + 3 ≤ MEMORY_SIZE)
    (h55 : (DecodedFields.new (opcodeAt c)).first_nibble = 0xF →
           ((DecodedFields.new (opcodeAt c)).nn = 0x55 ∨
            (DecodedFields.new (opcodeAt c)).nn = 0x65) →
           c.i + (DecodedFields.new (opcodeAt c)).x + 1 ≤ MEMORY_SIZE) :
    ∃ c2, cycle r c = some c2 := by
  have hb1 : c.pc < MEMORY_SIZE := by omega
  have hb2 : (c.pc + 1) % 65536 < MEMORY_SIZE := by
    rw [MEMORY_SIZE_eq] at hpc ⊢
    omega
  have hf : fetch c = some (opcodeAt c, { c with pc := (c.pc + 2) % 65536 }) :=
    fetch_eq c hb1 hb2
  rw [cycle_eq_exec hw hf]
  apply Option.isSome_iff_exists.mp
  by_cases hDc : (DecodedFields.new (opcodeAt c)).first_nibble = 0xD
  · rw [execOp_draw r _ _ hDc]
    refine drawSprite_total (fun row hrow => ?_)
    have hbound := hD hDc
    have hn := decode_n_lt (opcodeAt c)
    show (c.i + row) % 65536 < MEMORY_SIZE
    rw [MEMORY_SIZE_eq] at hbound ⊢
    omega
  · by_cases h33c : (DecodedFields.new (opcodeAt c)).first_nibble = 0xF ∧
        (DecodedFields.new (opcodeAt c)).nn = 0x33
    · rw [execOp_bcd r _ _ h33c.1 h33c.2]
      exact bcdWrite_total _ (h33 h33c.1 h33c.2)
    · by_cases h55c : (DecodedFields.new (opcodeAt c)).first_nibble = 0xF ∧
          (DecodedFields.new (opcodeAt c)).nn = 0x55
      · rw [execOp_store r _ _ h55c.1 h55c.2]
        refine storeRegs_total _ _ (fun idx hidx => ?_)
        have hbound := h55 h55c.1 (Or.inl h55c.2)
        have hmem := List.mem_range.mp hidx
        show c.i + idx < MEMORY_SIZE
        omega
      · by_cases h65c : (DecodedFields.new (opcodeAt c)).first_nibble = 0xF ∧
            (DecodedFields.new (opcodeAt c)).nn = 0x65
        · rw [execOp_loadr r _ _ h65c.1 h65c.2]
          refine loadRegs_total _ _ (fun idx hidx => ?_)
          have hbound := h55 h65c.1 (Or.inr h65c.2)
          have hmem := List.mem_range.mp hidx
          show c.i + idx < MEMORY_SIZE
          omega
        · exact execOp_total_other r _ _ hDc h33c h55c h65c

/-- Witness for C10 at a freshly constructed machine (opcode 0x0000 at the
program start). -/
theorem c10_witness : ∃ c2, cycle 0 Chip8.new = some c2 :=
  c10_memory_accesses_in_bounds 0 Chip8.new rfl (by decide) (by decide)
    (by decide) (by decide)

/-! ### Claim C5: draw-sprite, XOR compositing and the collision flag -/

/-- Sprite bit `bit` of byte `sb` (bit 0 is the leftmost pixel). -/
def spriteBit (sb bit : Nat) : Bool := decide (sb &&& (0x80 >>> bit) ≠ 0)

/-- The sprite byte the DXYN draw reads for `row`. -/
def spriteByteAt (c : Chip8) (row : Nat) : Nat := c.memory ((c.i + row) % 65536)

/-- Does a draw of one sprite row (origin (xp, yp), bits `0..k-1` of `sb`)
target the pixel (yy, xx)? -/
def rowTargets (xp yp row sb k yy xx : Nat) : Bool :=
  (List.range k).any fun bit =>
    spriteBit sb bit && ((yp + row) % DISPLAY_HEIGHT == yy) &&
      ((xp + bit) % DISPLAY_WIDTH == xx)

/-- Does a draw of one sprite row hit a pixel already set in `s`? -/
def rowCollision (s : Chip8) (xp yp row sb k : Nat) : Bool :=
  (List.range k).any fun bit =>
    spriteBit sb bit &&
      getPixel s ((yp + row) % DISPLAY_HEIGHT) ((xp + bit) % DISPLAY_WIDTH)

/-- Does the full DXYN draw (height n) from state `c` target pixel (yy, xx)? -/
def drawTargets (c : Chip8) (xp yp n yy xx : Nat) : Bool :=
  (List.range n).any fun row => rowTargets xp yp row (spriteByteAt c row) 8 yy xx

/-- Does the full DXYN draw hit some already-set pixel of `c`? -/
def drawCollision (c : Chip8) (xp yp n : Nat) : Bool :=
  (List.range n).any fun row => rowCollision c xp yp row (spriteByteAt c row) 8

theorem getPixel_setPixel (t : Chip8) (y x : Nat) (b : Bool) (yy xx : Nat) :
    getPixel (setPixel t y x b) yy xx = if yy = y ∧ xx = x then b else getPixel t yy xx :=
  rfl

theorem mod_add_cancel64 {xp b1 b2 : Nat} (h1 : b1 < 64) (h2 : b2 < 64)
    (hne : b1 ≠ b2) : (xp + b1) % 64 ≠ (xp + b2) % 64 := by
  omega

theorem mod_add_cancel32 {yp r1 r2 : Nat} (h1 : r1 < 32) (h2 : r2 < 32)
    (hne : r1 ≠ r2) : (yp + r1) % 32 ≠ (yp + r2) % 32 := by
  omega

theorem rowTargets_succ (xp yp row sb k yy xx : Nat) :
    rowTargets xp yp row sb (k + 1) yy xx =
      (rowTargets xp yp row sb k yy xx ||
        (spriteBit sb k && ((yp + row) % DISPLAY_HEIGHT == yy) &&
          ((xp + k) % DISPLAY_WIDTH == xx))) := by
  unfold rowTargets
  rw [List.range_succ, List.any_append]
  simp

theorem rowCollision_succ (s : Chip8) (xp yp row sb k : Nat) :
    rowCollision s xp yp row sb (k + 1) =
      (rowCollision s xp yp row sb k ||
        (spriteBit sb k &&
          getPixel s ((yp + row) % DISPLAY_HEIGHT) ((xp + k) % DISPLAY_WIDTH))) := by
  unfold rowCollision
  rw [List.range_succ, List.any_append]
  simp

/-- If bits below `k < 64` do not target column `(xp + k) % 64`, the row-draw
prefix has not touched the pixel the k-th bit writes. -/
theorem rowTargets_at_self (xp yp row sb k : Nat) (hk : k < 64) :
    rowTargets xp yp row sb k ((yp + row) % DISPLAY_HEIGHT) ((xp + k) % DISPLAY_WIDTH)
      = false := by
  unfold rowTargets
  rw [List.any_eq_false]
  intro bit hbit
  have hblt : bit < k := List.mem_range.mp hbit
  have hx : ((xp + bit) % DISPLAY_WIDTH == (xp + k) % DISPLAY_WIDTH) = false :=
    beq_eq_false_iff_ne.mpr (show (xp + bit) % 64 ≠ (xp + k) % 64 by omega)
  rw [hx, Bool.and_false]
  simp
theorem getV_setPixel (t : Chip8) (y x : Nat) (b : Bool) (j : Nat) :
    getV (setPixel t y x b) j = getV t j := rfl

theorem getPixel_setV (t : Chip8) (j v yy xx : Nat) :
    getPixel (setV t j v) yy xx = getPixel t yy xx := rfl

theorem getV_setV_self (t : Chip8) (j v : Nat) : getV (setV t j v) j = v := by
  simp [getV, setV, upd]

theorem getV_setV_ne (t : Chip8) (j v j2 : Nat) (h : j2 ≠ j) :
    getV (setV t j v) j2 = getV t j2 := by
  simp [getV, setV, upd, h]

/-- Pointwise characterisation of drawing the first `k` bits of one sprite
row: each targeted pixel is XOR-toggled exactly once, VF becomes 1 exactly
when some drawn bit hit an already-set pixel (otherwise it keeps its value),
and no other register changes. -/
theorem drawRow_spec (xp yp row sb : Nat) (s : Chip8) : ∀ k, k ≤ 8 →
    (∀ yy xx, getPixel ((List.range k).foldl (drawBitStep xp yp row sb) s) yy xx =
        xor (getPixel s yy xx) (rowTargets xp yp row sb k yy xx)) ∧
    getV ((List.range k).foldl (drawBitStep xp yp row sb) s) 0xF =
      (if rowCollision s xp yp row sb k then 1 else getV s 0xF) ∧
    (∀ j, j ≠ 0xF → getV ((List.range k).foldl (drawBitStep xp yp row sb) s) j =
      getV s j) := by
  intro k
  induction k with
  | zero =>
    intro _
    refine ⟨fun yy xx => ?_, ?_, fun j _ => rfl⟩
    · simp [rowTargets]
    · simp [rowCollision]
  | succ k ih =>
    intro hk
    obtain ⟨ihp, ihf, ihv⟩ := ih (by omega)
    rw [List.range_succ, List.foldl_append, List.foldl_cons, List.foldl_nil]
    set F := (List.range k).foldl (drawBitStep xp yp row sb) s with hF
    have hpixF : getPixel F ((yp + row) % DISPLAY_HEIGHT) ((xp + k) % DISPLAY_WIDTH) =
        getPixel s ((yp + row) % DISPLAY_HEIGHT) ((xp + k) % DISPLAY_WIDTH) := by
      rw [ihp, rowTargets_at_self xp yp row sb k (by omega), Bool.xor_false]
    unfold drawBitStep
    by_cases hbit : sb &&& (0x80 >>> k) ≠ 0
    · have hsb : spriteBit sb k = true := decide_eq_true hbit
      rw [if_pos hbit]
      dsimp only
      have hc1p : ∀ yy xx,
          getPixel (if getPixel F ((yp + row) % DISPLAY_HEIGHT)
              ((xp + k) % DISPLAY_WIDTH) then setV F 0xF 1 else F) yy xx =
            getPixel F yy xx := by
        intro yy xx
        split <;> rfl
      have hc1f : getV (if getPixel F ((yp + row) % DISPLAY_HEIGHT)
            ((xp + k) % DISPLAY_WIDTH) then setV F 0xF 1 else F) 0xF =
          (if getPixel F ((yp + row) % DISPLAY_HEIGHT) ((xp + k) % DISPLAY_WIDTH)
           then 1 else getV F 0xF) := by
        split
        · rw [getV_setV_self]
        · rfl
      have hc1v : ∀ j, j ≠ 0xF →
          getV (if getPixel F ((yp + row) % DISPLAY_HEIGHT)
              ((xp + k) % DISPLAY_WIDTH) then setV F 0xF 1 else F) j = getV F j := by
        intro j hj
        split
        · rw [getV_setV_ne _ _ _ _ hj]
        · rfl
      refine ⟨fun yy xx => ?_, ?_, fun j hj => ?_⟩
      · rw [getPixel_setPixel, rowTargets_succ]
        by_cases h1 : yy = (yp + row) % DISPLAY_HEIGHT
        · by_cases h2 : xx = (xp + k) % DISPLAY_WIDTH
          · rw [if_pos ⟨h1, h2⟩, hc1p]
            subst h1
            subst h2
            rw [hpixF, rowTargets_at_self xp yp row sb k (by omega)]
            simp [hsb]
          · rw [if_neg (by tauto), hc1p, ihp]
            have hbeq : ((xp + k) % DISPLAY_WIDTH == xx) = false :=
              beq_eq_false_iff_ne.mpr (fun hh => h2 hh.symm)
            rw [hbeq, Bool.and_false, Bool.or_false]
        · rw [if_neg (by tauto), hc1p, ihp]
          have hbeq : (((yp + row) % DISPLAY_HEIGHT : Nat) == yy) = false :=
            beq_eq_false_iff_ne.mpr (fun hh => h1 hh.symm)
          rw [hbeq, Bool.and_false, Bool.false_and, Bool.or_false]
      · rw [getV_setPixel, hc1f, hpixF, ihf, rowCollision_succ, hsb, Bool.true_and]
        cases hA : getPixel s ((yp + row) % DISPLAY_HEIGHT) ((xp + k) % DISPLAY_WIDTH) <;>
          cases hB : rowCollision s xp yp row sb k <;> simp
      · rw [getV_setPixel, hc1v j hj, ihv j hj]
    · rw [if_neg hbit]
      have hsb : spriteBit sb k = false := by
        simp only [spriteBit, decide_eq_false_iff_not]
        exact fun hh => hbit hh
      refine ⟨fun yy xx => ?_, ?_, fun j hj => ihv j hj⟩
      · rw [ihp, rowTargets_succ, hsb, Bool.false_and, Bool.false_and, Bool.or_false]
      · rw [ihf, rowCollision_succ, hsb, Bool.false_and, Bool.or_false]

theorem DISPLAY_HEIGHT_eq : DISPLAY_HEIGHT = 32 := rfl

theorem DISPLAY_WIDTH_eq : DISPLAY_WIDTH = 64 := rfl

theorem any_congr {α : Type} (l : List α) (p q : α → Bool)
    (h : ∀ a ∈ l, p a = q a) : l.any p = l.any q := by
  induction l with
  | nil => rfl
  | cons hd tl ih =>
    rw [List.any_cons, List.any_cons, h hd (List.mem_cons_self _ _),
      ih (fun a ha => h a (List.mem_cons_of_mem _ ha))]

theorem foldlM_append_opt {α β : Type} (f : β → α → Option β) :
    ∀ (l1 l2 : List α) (b : β),
      ((l1 ++ l2).foldlM f b) = (l1.foldlM f b).bind (fun x => l2.foldlM f x) := by
  intro l1
  induction l1 with
  | nil => intro l2 b; rfl
  | cons hd tl ih =>
    intro l2 b
    rw [List.cons_append, List.foldlM_cons, List.foldlM_cons]
    cases hfb : f b hd with
    | none => rfl
    | some b2 => exact ih l2 b2

theorem rowTargets_yy {xp yp row sb k yy xx : Nat}
    (h : rowTargets xp yp row sb k yy xx = true) :
    (yp + row) % DISPLAY_HEIGHT = yy := by
  unfold rowTargets at h
  rw [List.any_eq_true] at h
  obtain ⟨bit, -, hcond⟩ := h
  simp only [Bool.and_eq_true, beq_iff_eq] at hcond
  exact hcond.1.2

/-- Rows before `m` never target the pixel row `(yp + m) % 32`: all draw
rows land on pairwise distinct pixel rows (the height is at most 16 < 32). -/
theorem drawTargets_fixed_row (s : Chip8) (xp yp m xx : Nat) (hm : m < 32) :
    drawTargets s xp yp m ((yp + m) % DISPLAY_HEIGHT) xx = false := by
  unfold drawTargets
  rw [List.any_eq_false]
  intro row hrow
  have hrlt : row < m := List.mem_range.mp hrow
  intro hcon
  have hyy := rowTargets_yy hcon
  rw [DISPLAY_HEIGHT_eq] at hyy
  omega

/-- The pixel-level spec of the whole DXYN draw loop of height `m ≤ 16`. -/
theorem drawSprite_spec (xp yp : Nat) : ∀ (m : Nat), m ≤ 16 → ∀ (s : Chip8),
    (∀ row, row < m → (s.i + row) % 65536 < MEMORY_SIZE) →
    ∃ s', drawSprite xp yp m s = some s' ∧ rest s' = rest s ∧
      (∀ yy xx, getPixel s' yy xx =
        xor (getPixel s yy xx) (drawTargets s xp yp m yy xx)) ∧
      getV s' 0xF = (if drawCollision s xp yp m then 1 else getV s 0xF) ∧
      (∀ j, j ≠ 0xF → getV s' j = getV s j) := by
  intro m
  induction m with
  | zero =>
    intro _ s _
    refine ⟨s, rfl, rfl, fun yy xx => ?_, ?_, fun j _ => rfl⟩
    · simp [drawTargets]
    · simp [drawCollision]
  | succ m ih =>
    intro hm s hbound
    obtain ⟨sm, hfold, hrest, ihp, ihf, ihv⟩ :=
      ih (by omega) s (fun row hrow => hbound row (by omega))
    have hi_m : sm.i = s.i := rest_i hrest
    have hmem_m : sm.memory = s.memory := rest_memory hrest
    have hread : readMem sm ((sm.i + m) % 65536) = some (spriteByteAt s m) := by
      unfold readMem
      rw [hi_m, hmem_m, if_pos (hbound m (by omega))]
      rfl
    have hfold2 : (List.range m).foldlM (fun t row =>
        match readMem t ((t.i + row) % 65536) with
        | none => none
        | some sb => some (drawRow xp yp row sb t)) s = some sm := hfold
    refine ⟨drawRow xp yp m (spriteByteAt s m) sm, ?_, ?_, fun yy xx => ?_, ?_,
      fun j hj => ?_⟩
    · show drawSprite xp yp (m + 1) s = _
      unfold drawSprite
      rw [List.range_succ, foldlM_append_opt, hfold2, Option.some_bind',
        List.foldlM_cons, hread]
      rfl
    · rw [drawRow_rest, hrest]
    · have hrow8 := drawRow_spec xp yp m (spriteByteAt s m) sm 8 (le_refl 8)
      have hrp := hrow8.1 yy xx
      show getPixel ((List.range 8).foldl (drawBitStep xp yp m (spriteByteAt s m)) sm)
        yy xx = _
      rw [hrp, ihp]
      have hT : drawTargets s xp yp (m + 1) yy xx =
          (drawTargets s xp yp m yy xx ||
            rowTargets xp yp m (spriteByteAt s m) 8 yy xx) := by
        unfold drawTargets
        rw [List.range_succ, List.any_append]
        simp
      rw [hT]
      cases hR : rowTargets xp yp m (spriteByteAt s m) 8 yy xx with
      | false => simp
      | true =>
        have hyy := rowTargets_yy hR
        subst hyy
        rw [drawTargets_fixed_row s xp yp m xx (by omega)]
        simp
    · have hrow8 := drawRow_spec xp yp m (spriteByteAt s m) sm 8 (le_refl 8)
      have hrf := hrow8.2.1
      show getV ((List.range 8).foldl (drawBitStep xp yp m (spriteByteAt s m)) sm)
        0xF = _
      rw [hrf, ihf]
      have hRC : rowCollision sm xp yp m (spriteByteAt s m) 8 =
          rowCollision s xp yp m (spriteByteAt s m) 8 := by
        unfold rowCollision
        refine any_congr _ _ _ (fun bit hbit => ?_)
        have hpx : getPixel sm ((yp + m) % DISPLAY_HEIGHT) ((xp + bit) % DISPLAY_WIDTH)
            = getPixel s ((yp + m) % DISPLAY_HEIGHT) ((xp + bit) % DISPLAY_WIDTH) := by
          rw [ihp, drawTargets_fixed_row s xp yp m _ (by omega), Bool.xor_false]
        rw [hpx]
      rw [hRC]
      have hC : drawCollision s xp yp (m + 1) =
          (drawCollision s xp yp m || rowCollision s xp yp m (spriteByteAt s m) 8) := by
        unfold drawCollision
        rw [List.range_succ, List.any_append]
        simp
      rw [hC]
      cases hA : rowCollision s xp yp m (spriteByteAt s m) 8 <;>
        cases hB : drawCollision s xp yp m <;> simp
    · have hrow8 := drawRow_spec xp yp m (spriteByteAt s m) sm 8 (le_refl 8)
      have hrv := hrow8.2.2 j hj
      show getV ((List.range 8).foldl (drawBitStep xp yp m (spriteByteAt s m)) sm) j = _
      rw [hrv, ihv j hj]

/-- A fresh machine whose ROM sets I = 0x206 (a byte holding 0xFF) and draws
the one-byte sprite 0xFF twice at (V0, V1) = (0, 0). -/
def s5 : Chip8 :=
  (Chip8.new.load_rom [0xA2, 0x06, 0xD0, 0x11, 0xD0, 0x11, 0xFF]).getD Chip8.new

/-- State `s5` after ANNN and the first draw. -/
def s5b : Chip8 := ((cycle 0 s5).bind (cycle 0)).getD Chip8.new

/-- State `s5b` after the second, identical draw. -/
def s5c : Chip8 := (cycle 0 s5b).getD Chip8.new

/-- C5: draw-sprite XOR-composites N sprite bytes onto the display with
wraparound on both axes; the flag register is cleared at the start and ends
1 exactly when some drawn pixel was already set; no other register, nor
memory, pc-adjacent state, or the index register is disturbed beyond the
fetch advance.  In particular (second conjunct, at a concrete machine),
drawing the same 0xFF sprite twice at the same coordinates leaves flag 0
after the first draw with the eight targeted pixels on, and flag 1 after the
second draw with every targeted pixel toggled back off. -/
theorem c5_draw_sprite_xor_collision :
    (∀ (r : Nat) (c : Chip8) (op : Nat) (c1 : Chip8),
      c.waiting_for_key = none → fetch c = some (op, c1) →
      (DecodedFields.new op).first_nibble = 0xD →
      c.i + (DecodedFields.new op).n ≤ MEMORY_SIZE →
      ∃ c2, cycle r c = some c2 ∧
        (∀ yy xx, getPixel c2 yy xx =
          xor (getPixel c yy xx)
            (drawTargets c (getV c (DecodedFields.new op).x)
              (getV c (DecodedFields.new op).y) (DecodedFields.new op).n yy xx)) ∧
        getV c2 0xF = (if drawCollision c (getV c (DecodedFields.new op).x)
            (getV c (DecodedFields.new op).y) (DecodedFields.new op).n
          then 1 else 0) ∧
        (∀ j, j ≠ 0xF → getV c2 j = getV c j) ∧
        c2.pc = (c.pc + 2) % 65536 ∧ c2.memory = c.memory ∧ c2.i = c.i ∧
        c2.waiting_for_key = c.waiting_for_key) ∧
    ((cycle 0 s5).bind (cycle 0) = some s5b ∧ cycle 0 s5b = some s5c ∧
     s5b.v 0xF = 0 ∧ (∀ xx, xx < 8 → s5b.display 0 xx = true) ∧
     s5c.v 0xF = 1 ∧ (∀ yy, yy < 32 → ∀ xx, xx < 64 → s5c.display yy xx = false)) := by
  constructor
  · intro r c op c1 hw hf hfn hin
    obtain ⟨hc1, -, -, -⟩ := fetch_inv hf
    subst hc1
    rw [cycle_eq_exec hw hf, execOp_draw r op _ hfn]
    have hn16 : (DecodedFields.new op).n ≤ 16 := by
      have := decode_n_lt op
      omega
    obtain ⟨s', hs', hrest, hp, hfg, hv⟩ :=
      drawSprite_spec (getV c (DecodedFields.new op).x) (getV c (DecodedFields.new op).y)
        (DecodedFields.new op).n hn16
        (setV { c with pc := (c.pc + 2) % 65536 } 0xF 0)
        (fun row hrow => by
          show (c.i + row) % 65536 < MEMORY_SIZE
          rw [MEMORY_SIZE_eq] at hin ⊢
          omega)
    have hm2 := rest_memory hrest
    have hi2 := rest_i hrest
    have hpc2 := rest_pc hrest
    have hwk2 := rest_waiting hrest
    refine ⟨s', hs', fun yy xx => hp yy xx, hfg, fun j hj => ?_, hpc2, hm2, hi2, hwk2⟩
    have hstep := hv j hj
    rw [hstep]
    exact getV_setV_ne _ _ _ _ hj
  · exact ⟨rfl, rfl, rfl, by decide, rfl, by decide⟩

/-- Witness for C5 at the concrete machine `s5b`, about to execute the
second DXYN. -/
theorem c5_witness :
    ∃ c2, cycle 0 s5b = some c2 ∧
      (∀ yy xx, getPixel c2 yy xx =
        xor (getPixel s5b yy xx) (drawTargets s5b (getV s5b 0) (getV s5b 1) 1 yy xx)) ∧
      getV c2 0xF = (if drawCollision s5b (getV s5b 0) (getV s5b 1) 1 then 1 else 0) := by
  obtain ⟨c2, h1, h2, h3, -⟩ := c5_draw_sprite_xor_collision.1 0 s5b 0xD011
    { s5b with pc := 0x206 } rfl rfl (by decide) (by decide)
  exact ⟨c2, h1, h2, h3⟩

end CHIP8
